import Mathlib

/-!
Verification of the OpenClaw MCP server (`src/index.js`) against its
natural-language specification.

The JavaScript source is shallowly embedded below:
strings are modelled as `String` / `List Char`, JSON numbers used for
quality scores as `ℚ`, optional/undefined JSON fields as `Option`,
thrown exceptions as `Except String`, and the network boundary (`fetch`)
as an explicit `HttpReply` argument holding the status and the already
decoded body.  JavaScript truthiness tests (`if (q)`, `if (min_quality)`,
`if (!instruction)`) are embedded by explicit truthiness functions on the
corresponding `Option` types.
-/

namespace OpenClaw

/-! Instruction extractor (`extractInstruction`, src/index.js lines 42-50).

The regex `/## The Instruction\s*\n[\s\S]*?```[\w]*\n([\s\S]*?)```/` is
embedded as an explicit backtracking scan over the character list:
the engine tries every start position from the left (`reMatch`); at a
start position the literal heading must match, the greedy `\s*`
followed by `\n` consumes up to the last newline of the leading
whitespace run (`afterLastNl`), the lazy `[\s\S]*?` tries every
subsequent position for a fence opener (`findOpener`/`tryOpener`:
three backticks, a greedy run of word characters, a newline), and the
lazy capture group stops at the first closing triple backtick
(`findTicks`).  A position whose attempt fails is abandoned and the
scan advances by one character, exactly as the regex engine does. -/

def isWs (c : Char) : Bool :=
  c = ' ' || c = '\t' || c = '\n' || c = '\r' || c = '\x0b' || c = '\x0c'

def isWordChar (c : Char) : Bool :=
  ('a' ≤ c && c ≤ 'z') || ('A' ≤ c && c ≤ 'Z') || ('0' ≤ c && c ≤ '9') || c = '_'

def btick : Char := '\x60'

def ticks : List Char := [btick, btick, btick]

def headingChars : List Char :=
  ['#', '#', ' ', 'T', 'h', 'e', ' ', 'I', 'n', 's', 't', 'r', 'u', 'c', 't', 'i', 'o', 'n']

/-- Interior of the capture group: everything up to the first closing
triple backtick; `none` when no closing fence exists. -/
def findTicks : List Char → Option (List Char)
  | [] => none
  | c :: rest =>
    if ticks.isPrefixOf (c :: rest) then some []
    else (findTicks rest).map (fun l => c :: l)

/-- Attempt to match ``` then `[\w]*` then a newline at the head of `s`,
returning the capture-group interior on success. -/
def tryOpener (s : List Char) : Option (List Char) :=
  if ticks.isPrefixOf s then
    let t := s.drop 3
    match t.drop (t.takeWhile isWordChar).length with
    | '\n' :: v => findTicks v
    | _ => none
  else none

/-- The lazy `[\s\S]*?` before the fence: try each position in turn. -/
def findOpener : List Char → Option (List Char)
  | [] => none
  | c :: rest =>
    match tryOpener (c :: rest) with
    | some inner => some inner
    | none => findOpener rest

/-- The `\s*\n` part with a greedy `\s*`: consume up to (and including) the last
newline inside the maximal leading whitespace run; fail when the run
holds no newline. -/
def afterLastNl (s : List Char) : Option (List Char) :=
  let w := s.takeWhile isWs
  if '\n' ∈ w then
    some ((w.reverse.takeWhile (fun c => c ≠ '\n')).reverse ++ s.drop w.length)
  else none

def matchAfterHeading (s : List Char) : Option (List Char) :=
  match afterLastNl s with
  | some t => findOpener t
  | none => none

/-- Leftmost match of the whole regex: try every start position. -/
def reMatch : List Char → Option (List Char)
  | [] => none
  | c :: rest =>
    match (if headingChars.isPrefixOf (c :: rest)
           then matchAfterHeading ((c :: rest).drop 18)
           else none) with
    | some inner => some inner
    | none => reMatch rest

/-- First occurrence split: `some (before, after)` at the first
occurrence of `pat` (nonempty), `none` when `pat` does not occur. -/
def splitOnce (pat : List Char) : List Char → Option (List Char × List Char)
  | [] => none
  | c :: rest =>
    if pat.isPrefixOf (c :: rest) then some ([], (c :: rest).drop pat.length)
    else (splitOnce pat rest).map (fun p => (c :: p.1, p.2))

/-- The segment `split(...)[1]` of JavaScript: the text after the first
heading up to the next occurrence of the heading, or to the end. -/
def headSeg (rest : List Char) : List Char :=
  match splitOnce headingChars rest with
  | some p => p.1
  | none => rest

/-- The JavaScript `String.prototype.trim` on a character list. -/
def jsTrim (s : List Char) : List Char :=
  ((s.dropWhile isWs).reverse.dropWhile isWs).reverse

/-- Embedding of `extractInstruction` (src/index.js lines 42-50).  JavaScript `null`
is embedded as `none`; note the fallback branch returns the trimmed
split segment even when it is the empty string. -/
def extractInstruction (markdown : List Char) : Option (List Char) :=
  match reMatch markdown with
  | some inner => some (jsTrim inner)
  | none =>
    match splitOnce headingChars markdown with
    | some p => some (jsTrim (headSeg p.2))
    | none => none

/-! Data model and JavaScript value helpers. -/

/-- One registry index record (spec §3 `Entry`).  Optional JSON fields
are `Option`; `featured` is used only through its truthiness, so a
missing field is embedded as `false`. -/
structure Entry where
  title : String
  slug : String
  category : String
  tags : Option (List String)
  quality_score : Option ℚ
  featured : Bool
  url : String
deriving DecidableEq, Repr

/-- The parsed `index.json` (spec §3 `IndexDocument`).  The code guards
`index.entries || []`, so `entries` is optional. -/
structure IndexDoc where
  count : Nat
  categories : List String
  entries : Option (List Entry)
deriving DecidableEq, Repr

/-- One `{type: "text", text: ...}` content item. -/
structure TextContent where
  type : String
  text : String
deriving DecidableEq, Repr

/-- The tool-call result envelope; `isError` defaults to `false` when
the source does not set it. -/
structure ToolResult where
  content : List TextContent
  isError : Bool := false
deriving DecidableEq, Repr

def mkText (s : String) : TextContent := { type := "text", text := s }

/-- The `arguments` object of a tool call; every field may be absent. -/
structure ToolArgs where
  q : Option String := none
  category : Option String := none
  min_quality : Option ℚ := none
  featured_only : Option Bool := none
  slug : Option String := none
  instruction_only : Option Bool := none
deriving DecidableEq, Repr

def emptyArgs : ToolArgs := {}

/-- JavaScript truthiness of a possibly-absent string (`""` is falsy). -/
def strTruthy : Option String → Bool
  | some s => !s.isEmpty
  | none => false

/-- JavaScript truthiness of a possibly-absent number (`0` is falsy). -/
def numTruthy : Option ℚ → Bool
  | some m => m != 0
  | none => false

/-- JavaScript truthiness of a possibly-absent boolean. -/
def boolTruthy : Option Bool → Bool
  | some b => b
  | none => false

/-- The JavaScript `String.prototype.toLowerCase` (ASCII letters, as `Char.toLower`). -/
def jsLower (s : String) : String := String.mk (s.data.map Char.toLower)

/-- The JavaScript `String.prototype.includes` on character lists. -/
def listContains (pat : List Char) : List Char → Bool
  | [] => pat.isEmpty
  | c :: rest => pat.isPrefixOf (c :: rest) || listContains pat rest

def jsIncludes (s sub : String) : Bool := listContains sub.data s.data

/-- Template interpolation of a possibly-undefined string value. -/
def jsOptStr : Option String → String
  | some s => s
  | none => "undefined"

/-- Template interpolation of a possibly-undefined quality score.
JavaScript prints `undefined` for a missing field; integral scores
print as their integer numeral. -/
def jsNum : Option ℚ → String
  | none => "undefined"
  | some r => if r.den = 1 then toString r.num else toString r.num ++ "." ++ toString r.den

def BASE_URL : String := "https://openclaw-sandy-eight.vercel.app"

/-- The decoded outcome of one HTTP fetch: status flag, status code and
the (already JSON-decoded) body on success. -/
structure HttpReply (α : Type) where
  ok : Bool
  status : Nat
  body : α
deriving DecidableEq, Repr

/-- Embedding of `fetchIndex` (src/index.js lines 29-33): throwing is embedded as
`Except.error` carrying `err.message`. -/
def fetchIndex (r : HttpReply IndexDoc) : Except String IndexDoc :=
  if r.ok then Except.ok r.body
  else Except.error ("Registry unavailable: " ++ toString r.status)

/-- Embedding of `fetchFile` (src/index.js lines 35-40). -/
def fetchFile (r : HttpReply String) (slug : Option String) : Except String String :=
  if r.ok then Except.ok r.body
  else Except.error ("File not found: " ++ jsOptStr slug ++ " (" ++ toString r.status ++ ")")

/-! Search handler (`handleSearchRegistry`, src/index.js lines 121-165). -/

/-- The keyword predicate of the `q` filter (lines 127-132): `term` is
the lowercased query. -/
def qMatch (term : String) (e : Entry) : Bool :=
  jsIncludes (jsLower e.title) term ||
  (e.tags.getD []).any (fun t => jsIncludes (jsLower t) term) ||
  jsIncludes (jsLower e.slug) term ||
  jsIncludes (jsLower e.category) term

/-- The filtering pipeline of `handleSearchRegistry` (lines 123-136):
each filter runs only when its argument is truthy. -/
def searchResults (index : IndexDoc) (q category : Option String)
    (min_quality : Option ℚ) (featured_only : Option Bool) : List Entry :=
  let r0 := index.entries.getD []
  let r1 := if strTruthy q then r0.filter (qMatch (jsLower (q.getD ""))) else r0
  let r2 := if strTruthy category then r1.filter (fun e => e.category == category.getD "") else r1
  let r3 := if numTruthy min_quality
            then r2.filter (fun e => decide (min_quality.getD 0 ≤ e.quality_score.getD 0))
            else r2
  let r4 := if boolTruthy featured_only then r3.filter (fun e => e.featured) else r3
  r4

/-- One listing block of the search output (lines 147-157). -/
def formatSearchEntry (e : Entry) : String :=
  "**" ++ e.title ++ "**" ++ "\n" ++
  "slug: " ++ e.slug ++ "\n" ++
  "category: " ++ e.category ++ "\n" ++
  "quality: " ++ jsNum e.quality_score ++ "/100" ++
    (if e.featured then " ★ featured" else "") ++ "\n" ++
  "tags: " ++ String.intercalate ", " (e.tags.getD []) ++ "\n" ++
  "url: " ++ e.url

/-- The success/empty result formatting of the search handler
(lines 138-164). -/
def searchText (index : IndexDoc) (results : List Entry) : String :=
  if results.length = 0 then
    "No results found for your query. Try broader terms or use list_categories to see what's available.\n\nRegistry has "
      ++ toString index.count ++ " total files across "
      ++ toString index.categories.length ++ " categories."
  else
    "Found " ++ toString results.length ++ " result"
      ++ (if results.length = 1 then "" else "s") ++ ":\n\n"
      ++ String.intercalate "\n\n---\n\n" (results.map formatSearchEntry)
      ++ "\n\nUse get_instruction with the slug to fetch the full file."

def handleSearchRegistry (ri : HttpReply IndexDoc) (args : ToolArgs) :
    Except String ToolResult := do
  let index ← fetchIndex ri
  let results := searchResults index args.q args.category args.min_quality args.featured_only
  pure { content := [mkText (searchText index results)] }

/-! Fetch-one handler (`handleGetInstruction`, src/index.js lines 167-194). -/

/-- The fallback result when the extracted instruction is falsy
(`null` or the empty string, line 172 `if (!instruction)`). -/
def getInstructionFallback (slug : Option String) (markdown : String) : ToolResult :=
  { content := [mkText ("Could not extract instruction from " ++ jsOptStr slug
      ++ ". Returning full file instead:\n\n" ++ markdown)] }

def getInstructionSuccess (slug : Option String) (instruction : List Char) : ToolResult :=
  { content := [mkText ("# Instruction: " ++ jsOptStr slug ++ "\n\n```\n"
      ++ String.mk instruction ++ "\n```\n\nFetched from: "
      ++ BASE_URL ++ "/registry/" ++ jsOptStr slug ++ ".md")] }

def handleGetInstruction (rf : HttpReply String) (args : ToolArgs) :
    Except String ToolResult := do
  let markdown ← fetchFile rf args.slug
  if boolTruthy args.instruction_only then
    match extractInstruction markdown.data with
    | none => pure (getInstructionFallback args.slug markdown)
    | some instruction =>
      if instruction.isEmpty then pure (getInstructionFallback args.slug markdown)
      else pure (getInstructionSuccess args.slug instruction)
  else
    pure { content := [mkText markdown] }

/-! List-categories handler (`handleListCategories`, src/index.js lines 196-228). -/

/-- The static category description mapping (lines 200-208). -/
def categoryInfo (c : String) : Option String :=
  if c = "system-prompts" then some "Full agent identity and behavior definitions — the complete personality and rules for an agent"
  else if c = "skills" then some "Scoped capability modules for specific tasks — drop into any agent to add a capability"
  else if c = "workflows" then some "Multi-step sequential or conditional process instructions"
  else if c = "tool-definitions" then some "Function schemas, API patterns, and tool usage instructions"
  else if c = "domain-packs" then some "Deep field context — industry knowledge, terminology, and domain standards"
  else if c = "safety-filters" then some "Output validation, content filtering, and harm detection patterns"
  else if c = "orchestration" then some "Multi-agent coordination and handoff protocols"
  else none

/-- The `counts` object after the initialisation loop (line 211): a key
exists exactly for the declared categories, with value 0. -/
def initCounts (cats : List String) : String → Option Nat :=
  fun c => if c ∈ cats then some 0 else none

/-- One step of the counting loop (lines 212-214): increment only when
the key already exists. -/
def bumpCount (m : String → Option Nat) (e : Entry) : String → Option Nat :=
  fun c =>
    if c = e.category then
      match m c with
      | some n => some (n + 1)
      | none => none
    else m c

/-- The `counts` object after both loops. -/
def finalCounts (index : IndexDoc) : String → Option Nat :=
  (index.entries.getD []).foldl bumpCount (initCounts index.categories)

/-- The per-category count displayed by the handler (`counts[cat] || 0`,
line 217). -/
def displayedCount (index : IndexDoc) (cat : String) : Nat :=
  (finalCounts index cat).getD 0

/-- The counts reported by `list_categories`, in declared order. -/
def displayedCounts (index : IndexDoc) : List Nat :=
  index.categories.map (displayedCount index)

def categoryLine (index : IndexDoc) (cat : String) : String :=
  "**" ++ cat ++ "** (" ++ toString (displayedCount index cat) ++ " file"
    ++ (if displayedCount index cat = 1 then "" else "s") ++ ")\n  "
    ++ (categoryInfo cat).getD ""

def handleListCategories (ri : HttpReply IndexDoc) : Except String ToolResult := do
  let index ← fetchIndex ri
  pure { content := [mkText ("OpenClaw Registry — " ++ toString index.count
    ++ " total files\n\n"
    ++ String.intercalate "\n\n" (index.categories.map (categoryLine index))
    ++ "\n\nUse search_registry with category filter to browse files in any category.")] }

/-! List-featured handler (`handleGetFeatured`, src/index.js lines 230-244). -/

def formatFeaturedEntry (e : Entry) : String :=
  "**" ++ e.title ++ "** [" ++ e.category ++ "]\nslug: " ++ e.slug
    ++ " | quality: " ++ jsNum e.quality_score ++ "/100\ntags: "
    ++ String.intercalate ", " (e.tags.getD [])

def handleGetFeatured (ri : HttpReply IndexDoc) : Except String ToolResult := do
  let index ← fetchIndex ri
  let featured := (index.entries.getD []).filter (fun e => e.featured)
  pure { content := [mkText ("Featured files (" ++ toString featured.length
    ++ " total — quality score 90+):\n\n"
    ++ String.intercalate "\n\n" (featured.map formatFeaturedEntry)
    ++ "\n\nUse get_instruction with any slug to fetch the full file.")] }

/-! Dispatcher (the `CallToolRequestSchema` handler, src/index.js lines 255-273). -/

/-- The `switch` inside the `try` block: the default case returns the
unknown-tool envelope (it does not throw), and handler exceptions
propagate as `Except.error`. -/
def rawDispatch (name : String) (args : Option ToolArgs)
    (ri : HttpReply IndexDoc) (rf : HttpReply String) : Except String ToolResult :=
  if name = "search_registry" then handleSearchRegistry ri (args.getD emptyArgs)
  else if name = "get_instruction" then handleGetInstruction rf (args.getD emptyArgs)
  else if name = "list_categories" then handleListCategories ri
  else if name = "get_featured" then handleGetFeatured ri
  else Except.ok { content := [mkText ("Unknown tool: " ++ name)], isError := true }

/-- The whole request handler: the `catch` converts any thrown error
into an error envelope, so the dispatcher is total. -/
def callTool (name : String) (args : Option ToolArgs)
    (ri : HttpReply IndexDoc) (rf : HttpReply String) : ToolResult :=
  match rawDispatch name args ri rf with
  | Except.ok r => r
  | Except.error m => { content := [mkText ("Error: " ++ m)], isError := true }

def toolNames : List String :=
  ["search_registry", "get_instruction", "list_categories", "get_featured"]

/-! Supporting lemmas. -/

theorem headingChars_eq_data : headingChars = "## The Instruction".data := rfl

theorem isPrefixOf_append_self (l t : List Char) : l.isPrefixOf (l ++ t) = true := by
  induction l with
  | nil => cases t <;> simp [List.isPrefixOf]
  | cons c cs ih => simpa [List.isPrefixOf] using ih

theorem isPrefixOf_self (l : List Char) : l.isPrefixOf l = true := by
  simpa using isPrefixOf_append_self l []

theorem listContains_nil (l : List Char) : listContains [] l = true := by
  induction l with
  | nil => rfl
  | cons c cs ih => simp [listContains]

theorem listContains_append_right (pre pat : List Char) :
    listContains pat (pre ++ pat) = true := by
  induction pre with
  | nil =>
    cases pat with
    | nil => rfl
    | cons c cs =>
      simp only [List.nil_append, listContains]
      rw [isPrefixOf_self (c :: cs)]
      simp
  | cons c cs ih => simp [listContains, ih]

theorem jsIncludes_append_self (a b : String) : jsIncludes (a ++ b) b = true := by
  simp only [jsIncludes, String.data_append]
  exact listContains_append_right a.data b.data

/-- The leftmost scan ignores a region in which the heading never
starts. -/
theorem reMatch_skip (pre s : List Char)
    (h : ∀ i < pre.length, headingChars.isPrefixOf ((pre ++ s).drop i) = false) :
    reMatch (pre ++ s) = reMatch s := by
  induction pre with
  | nil => rfl
  | cons c cs ih =>
    have h0 : headingChars.isPrefixOf (c :: (cs ++ s)) = false := by
      simpa using h 0 (by simp)
    have hrec : ∀ i < cs.length, headingChars.isPrefixOf ((cs ++ s).drop i) = false := by
      intro i hi
      simpa using h (i + 1) (by simpa using Nat.succ_lt_succ hi)
    rw [List.cons_append, reMatch, h0]
    exact ih hrec

/-- A successful attempt right at the heading is the leftmost match. -/
theorem reMatch_at_heading (rest inner : List Char)
    (h : matchAfterHeading rest = some inner) :
    reMatch (headingChars ++ rest) = some inner := by
  have hpre := isPrefixOf_append_self headingChars rest
  have hdrop : (headingChars ++ rest).drop 18 = rest := by
    have h18 : headingChars.length = 18 := rfl
    rw [← h18]
    exact List.drop_left headingChars rest
  simp only [headingChars, List.cons_append, List.nil_append] at hpre hdrop ⊢
  rw [reMatch]
  simp [headingChars, hpre, hdrop, h]

theorem takeWhile_append_of_all (p : Char → Bool) (l r : List Char)
    (h : ∀ c ∈ l, p c = true) :
    (l ++ r).takeWhile p = l ++ r.takeWhile p := by
  induction l with
  | nil => rfl
  | cons c cs ih =>
    have hc : p c = true := h c (by simp)
    have hcs : ∀ c ∈ cs, p c = true := fun c hmem => h c (by simp [hmem])
    simp [List.takeWhile_cons, hc, ih hcs]

theorem drop_takeWhile_length (p : Char → Bool) (l : List Char) :
    l.drop (l.takeWhile p).length = l.dropWhile p := by
  induction l with
  | nil => rfl
  | cons c cs ih =>
    cases hc : p c <;> simp [List.takeWhile_cons, List.dropWhile_cons, hc, ih]

/-- The greedy `\s*` followed by `\n` lands exactly after the chosen
newline when the remaining whitespace of the run holds no further
newline. -/
theorem afterLastNl_spec (ws mid : List Char)
    (hws : ∀ c ∈ ws, isWs c = true)
    (hmid : ∀ c ∈ mid.takeWhile isWs, ¬ c = '\n') :
    afterLastNl (ws ++ '\n' :: mid) = some mid := by
  have hW : (ws ++ '\n' :: mid).takeWhile isWs = ws ++ '\n' :: mid.takeWhile isWs := by
    rw [takeWhile_append_of_all isWs ws ('\n' :: mid) hws]
    simp [List.takeWhile_cons, isWs]
  have hmem : '\n' ∈ (ws ++ '\n' :: mid).takeWhile isWs := by
    rw [hW]; exact List.mem_append_right ws (by simp)
  have hrev : ((ws ++ '\n' :: mid.takeWhile isWs).reverse.takeWhile
      (fun c => c ≠ '\n')).reverse = mid.takeWhile isWs := by
    rw [List.reverse_append, List.reverse_cons]
    rw [List.append_assoc]
    rw [takeWhile_append_of_all (fun c => decide (c ≠ '\n')) (mid.takeWhile isWs).reverse
      (['\n'] ++ ws.reverse) (by
        intro c hc
        simp only [List.mem_reverse] at hc
        simpa using hmid c hc)]
    simp [List.takeWhile_cons]
  have hdrop : (ws ++ '\n' :: mid).drop (ws ++ '\n' :: mid.takeWhile isWs).length
      = mid.drop (mid.takeWhile isWs).length := by
    have : ws ++ '\n' :: mid = (ws ++ ['\n']) ++ mid := by simp
    rw [this]
    have hlen : (ws ++ '\n' :: mid.takeWhile isWs).length
        = (ws ++ ['\n']).length + (mid.takeWhile isWs).length := by simp; omega
    rw [hlen, List.drop_append]
  simp only [afterLastNl]
  rw [hW]
  rw [if_pos (show ('\n' : Char) ∈ ws ++ '\n' :: mid.takeWhile isWs from
    List.mem_append_right ws (by simp))]
  rw [hrev, hdrop, drop_takeWhile_length]
  rw [List.takeWhile_append_dropWhile]

/-- The lazy scan for a fence opener ignores a region in which no
opener attempt succeeds. -/
theorem findOpener_skip (m1 s : List Char)
    (h : ∀ i < m1.length, tryOpener ((m1 ++ s).drop i) = none) :
    findOpener (m1 ++ s) = findOpener s := by
  induction m1 with
  | nil => rfl
  | cons c cs ih =>
    have h0 : tryOpener (c :: (cs ++ s)) = none := by simpa using h 0 (by simp)
    have hrec : ∀ i < cs.length, tryOpener ((cs ++ s).drop i) = none := by
      intro i hi
      simpa using h (i + 1) (by simpa using Nat.succ_lt_succ hi)
    rw [List.cons_append, findOpener, h0]
    exact ih hrec

/-- The capture group stops at the first closing fence. -/
theorem findTicks_spec (inner post : List Char)
    (h : ∀ i < inner.length, ticks.isPrefixOf ((inner ++ (ticks ++ post)).drop i) = false) :
    findTicks (inner ++ (ticks ++ post)) = some inner := by
  induction inner with
  | nil =>
    have hc : ([] : List Char) ++ (ticks ++ post) = btick :: btick :: btick :: post := by
      simp [ticks]
    rw [hc, findTicks]
    rw [show ticks.isPrefixOf (btick :: btick :: btick :: post) = true by
      simpa [ticks] using isPrefixOf_append_self ticks post]
    simp
  | cons c cs ih =>
    have h0 : ticks.isPrefixOf (c :: (cs ++ (ticks ++ post))) = false := by
      simpa using h 0 (by simp)
    have hrec : ∀ i < cs.length, ticks.isPrefixOf ((cs ++ (ticks ++ post)).drop i) = false := by
      intro i hi
      simpa using h (i + 1) (by simpa using Nat.succ_lt_succ hi)
    have hcons : (c :: cs) ++ (ticks ++ post) = c :: (cs ++ (ticks ++ post)) := by simp
    rw [hcons, findTicks, h0]
    simp only [Bool.false_eq_true, if_neg, ih hrec]
    rfl

/-- A well-formed fence opener at the head of the scan yields the block
interior up to the first closing fence. -/
theorem tryOpener_spec (tag inner post : List Char)
    (htag : ∀ c ∈ tag, isWordChar c = true)
    (hinner : ∀ i < inner.length,
      ticks.isPrefixOf ((inner ++ (ticks ++ post)).drop i) = false) :
    tryOpener (ticks ++ (tag ++ '\n' :: (inner ++ (ticks ++ post)))) = some inner := by
  have hpre : ticks.isPrefixOf (ticks ++ (tag ++ '\n' :: (inner ++ (ticks ++ post)))) = true :=
    isPrefixOf_append_self ticks _
  have hdrop3 : (ticks ++ (tag ++ '\n' :: (inner ++ (ticks ++ post)))).drop 3
      = tag ++ '\n' :: (inner ++ (ticks ++ post)) := by
    have h3 : (3 : Nat) = ticks.length := rfl
    rw [h3]
    exact List.drop_left ticks _
  have htake : (tag ++ '\n' :: (inner ++ (ticks ++ post))).takeWhile isWordChar = tag := by
    rw [takeWhile_append_of_all isWordChar tag ('\n' :: (inner ++ (ticks ++ post))) htag]
    simp [List.takeWhile_cons, isWordChar]
  have hdroptag : (tag ++ '\n' :: (inner ++ (ticks ++ post))).drop tag.length
      = '\n' :: (inner ++ (ticks ++ post)) := List.drop_left tag _
  unfold tryOpener
  rw [hpre]
  simp only [if_pos]
  rw [hdrop3, htake, hdroptag]
  exact findTicks_spec inner post hinner

end OpenClaw

namespace OpenClaw

/-! Claim theorems. -/

/-- C3: for every markdown document that decomposes as an arbitrary
region `pre` in which the heading `## The Instruction` never starts
(so in particular any fenced blocks before the heading are ignored),
the heading line, a whitespace tail `ws` and its final newline, then a
region `mid1` in which no fenced opener with a closing fence starts,
then the first fenced block (three backticks, a word-character
language tag, a newline, the interior `inner`, and the first closing
three backticks), `extractInstruction` returns exactly the trimmed
interior of that first fenced block after the heading. -/
theorem c3_extract_first_fenced_block (pre ws mid1 tag inner post : List Char)
    (hpre : ∀ i < pre.length, headingChars.isPrefixOf
      ((pre ++ headingChars ++ ws ++ '\n' ::
        (mid1 ++ ticks ++ tag ++ '\n' :: (inner ++ ticks ++ post))).drop i) = false)
    (hws : ∀ c ∈ ws, isWs c = true)
    (hmid : ∀ c ∈ (mid1 ++ ticks ++ tag ++ '\n' ::
      (inner ++ ticks ++ post)).takeWhile isWs, ¬ c = '\n')
    (hop : ∀ i < mid1.length, tryOpener
      ((mid1 ++ ticks ++ tag ++ '\n' :: (inner ++ ticks ++ post)).drop i) = none)
    (htag : ∀ c ∈ tag, isWordChar c = true)
    (hinner : ∀ i < inner.length,
      ticks.isPrefixOf ((inner ++ ticks ++ post).drop i) = false) :
    extractInstruction (pre ++ headingChars ++ ws ++ '\n' ::
      (mid1 ++ ticks ++ tag ++ '\n' :: (inner ++ ticks ++ post)))
      = some (jsTrim inner) := by
  simp only [List.append_assoc] at hpre hmid hop hinner ⊢
  have hopen : tryOpener (ticks ++ (tag ++ '\n' :: (inner ++ (ticks ++ post))))
      = some inner := tryOpener_spec tag inner post htag hinner
  have hfo : findOpener (ticks ++ (tag ++ '\n' :: (inner ++ (ticks ++ post))))
      = some inner := by
    have hc : (ticks : List Char) ++ (tag ++ '\n' :: (inner ++ (ticks ++ post)))
        = btick :: (btick :: btick :: (tag ++ '\n' :: (inner ++ (ticks ++ post)))) := by
      simp [ticks]
    rw [hc] at hopen ⊢
    rw [findOpener, hopen]
  have hmid' : findOpener (mid1 ++ (ticks ++ (tag ++ '\n' :: (inner ++ (ticks ++ post)))))
      = some inner := by
    rw [findOpener_skip mid1 (ticks ++ (tag ++ '\n' :: (inner ++ (ticks ++ post)))) hop]
    exact hfo
  have hafter : matchAfterHeading (ws ++ '\n' ::
      (mid1 ++ (ticks ++ (tag ++ '\n' :: (inner ++ (ticks ++ post)))))) = some inner := by
    rw [matchAfterHeading, afterLastNl_spec ws _ hws hmid]
    exact hmid'
  have hre : reMatch (pre ++ (headingChars ++ (ws ++ '\n' ::
      (mid1 ++ (ticks ++ (tag ++ '\n' :: (inner ++ (ticks ++ post)))))))) = some inner := by
    rw [reMatch_skip pre _ hpre]
    exact reMatch_at_heading _ inner hafter
  rw [extractInstruction, hre]

theorem reMatch_none_of_no_heading (s : List Char)
    (h : ∀ i < s.length, headingChars.isPrefixOf (s.drop i) = false) :
    reMatch s = none := by
  induction s with
  | nil => rfl
  | cons c cs ih =>
    have h0 : headingChars.isPrefixOf (c :: cs) = false := by simpa using h 0 (by simp)
    rw [reMatch, h0]
    simp only [Bool.false_eq_true, if_neg]
    exact ih (fun i hi => by simpa using h (i + 1) (by simpa using Nat.succ_lt_succ hi))

theorem splitOnce_none_of_no_heading (s : List Char)
    (h : ∀ i < s.length, headingChars.isPrefixOf (s.drop i) = false) :
    splitOnce headingChars s = none := by
  induction s with
  | nil => rfl
  | cons c cs ih =>
    have h0 : headingChars.isPrefixOf (c :: cs) = false := by simpa using h 0 (by simp)
    rw [splitOnce, h0]
    simp only [Bool.false_eq_true, if_neg]
    rw [ih (fun i hi => by simpa using h (i + 1) (by simpa using Nat.succ_lt_succ hi))]
    rfl

theorem splitOnce_at_start (rest : List Char) :
    splitOnce headingChars (headingChars ++ rest) = some ([], rest) := by
  have hpre := isPrefixOf_append_self headingChars rest
  have hdrop : (headingChars ++ rest).drop headingChars.length = rest :=
    List.drop_left headingChars rest
  simp only [headingChars, List.cons_append, List.nil_append] at hpre hdrop ⊢
  rw [splitOnce]
  simp [hpre, hdrop]

/-- The first-occurrence split lands at the heading when the heading
never starts inside the region before it. -/
theorem splitOnce_skip (pre rest : List Char)
    (h : ∀ i < pre.length,
      headingChars.isPrefixOf ((pre ++ (headingChars ++ rest)).drop i) = false) :
    splitOnce headingChars (pre ++ (headingChars ++ rest)) = some (pre, rest) := by
  induction pre with
  | nil => exact splitOnce_at_start rest
  | cons c cs ih =>
    have h0 : headingChars.isPrefixOf (c :: (cs ++ (headingChars ++ rest))) = false := by
      simpa using h 0 (by simp)
    rw [List.cons_append, splitOnce, h0]
    simp only [Bool.false_eq_true, if_neg]
    rw [ih (fun i hi => by simpa using h (i + 1) (by simpa using Nat.succ_lt_succ hi))]
    rfl

/-- Witness for C3 at a concrete document whose Instruction section
holds a fenced block with text `do X`. -/
theorem c3_extract_first_fenced_block_witness :
    extractInstruction (['x', '\n'] ++ headingChars ++ [] ++ '\n' ::
      ([] ++ ticks ++ [] ++ '\n' :: ("do X\n".data ++ ticks ++ "\n".data)))
      = some ("do X".data) := by
  have h := c3_extract_first_fenced_block ['x', '\n'] [] [] [] "do X\n".data "\n".data
    (by decide) (by decide) (by decide) (by decide) (by decide) (by decide)
  exact h.trans (by decide)

/-- C4 counterexample: on the document consisting of the heading alone
the remainder after the heading is empty, yet `extractInstruction`
returns the empty string (a defined, falsy value), not absent, so the
claim's `otherwise ... extract returns absent` clause is false as
stated. -/
theorem c4_counterexample :
    extractInstruction headingChars = some [] ∧ extractInstruction headingChars ≠ none := by
  exact ⟨by decide, by decide⟩

/-- C4 as amended: when no fenced block matches after the heading
(the first regex stage fails), extraction is characterized by the
split fallback: with the heading absent extraction returns absent, and
with the heading present it returns the trimmed text strictly between
the first occurrence of the heading and its next occurrence (or the
end of the document) — even when that segment is empty, in which case
the result is the empty string rather than absent. -/
theorem c4_fallback (d pre rest : List Char) :
    ((∀ i < d.length, headingChars.isPrefixOf (d.drop i) = false) →
      extractInstruction d = none) ∧
    ((∀ i < pre.length,
        headingChars.isPrefixOf ((pre ++ (headingChars ++ rest)).drop i) = false) →
      reMatch (pre ++ (headingChars ++ rest)) = none →
      extractInstruction (pre ++ (headingChars ++ rest)) = some (jsTrim (headSeg rest))) := by
  constructor
  · intro h
    rw [extractInstruction, reMatch_none_of_no_heading d h, splitOnce_none_of_no_heading d h]
  · intro hpre hre
    rw [extractInstruction, hre, splitOnce_skip pre rest hpre]

/-- Witness for C4 at concrete documents: one without the heading
(absent) and one whose heading is followed by plain text and no fenced
block (the trimmed trailing text, non-empty). -/
theorem c4_fallback_witness :
    extractInstruction "no heading here".data = none ∧
    extractInstruction ([] ++ (headingChars ++ "\nhello world\n".data))
      = some ("hello world".data) := by
  constructor
  · exact (c4_fallback "no heading here".data [] []).1 (by decide)
  · have h := (c4_fallback [] [] "\nhello world\n".data).2 (by decide) (by decide)
    exact h.trans (by decide)

/-- Membership characterization of the search filter pipeline: the
four filters act conjunctively, each active exactly when its argument
is truthy. -/
theorem mem_searchResults (idx : IndexDoc) (q c : Option String) (mq : Option ℚ)
    (fo : Option Bool) (e : Entry) :
    e ∈ searchResults idx q c mq fo ↔
      e ∈ idx.entries.getD [] ∧
      (strTruthy q = true → qMatch (jsLower (q.getD "")) e = true) ∧
      (strTruthy c = true → e.category = c.getD "") ∧
      (numTruthy mq = true → mq.getD 0 ≤ e.quality_score.getD 0) ∧
      (boolTruthy fo = true → e.featured = true) := by
  simp only [searchResults]
  cases hq : strTruthy q <;> cases hc : strTruthy c <;>
    cases hm : numTruthy mq <;> cases hf : boolTruthy fo <;>
    simp [List.mem_filter, and_assoc, beq_iff_eq] <;> tauto

/-- Sample registry data used by the concrete witnesses. -/
def eSafety : Entry :=
  { title := "Guard", slug := "guard", category := "safety-filters",
    tags := some ["safety-filters", "moderation"], quality_score := some 80,
    featured := true, url := "https://example.com/guard" }

def eLow : Entry :=
  { title := "Draft", slug := "draft", category := "skills",
    tags := none, quality_score := some 79, featured := false,
    url := "https://example.com/draft" }

def eNoScore : Entry :=
  { title := "Raw", slug := "raw", category := "skills",
    tags := some ["misc"], quality_score := none, featured := false,
    url := "https://example.com/raw" }

def idxSample : IndexDoc :=
  { count := 3, categories := ["safety-filters", "skills"],
    entries := some [eSafety, eLow, eNoScore] }

/-- C1: for every index and argument combination, the entries listed
by the search handler are a subset of the index entries, every listed
entry satisfies each supplied (truthy) filter predicate, and every
index entry satisfying all supplied filters is listed — the full
surviving set, with no pagination. -/
theorem c1_search_conjunction (idx : IndexDoc) (q c : Option String) (mq : Option ℚ)
    (fo : Option Bool) :
    (∀ e ∈ searchResults idx q c mq fo, e ∈ idx.entries.getD []) ∧
    (∀ e ∈ searchResults idx q c mq fo,
      (strTruthy q = true → qMatch (jsLower (q.getD "")) e = true) ∧
      (strTruthy c = true → e.category = c.getD "") ∧
      (numTruthy mq = true → mq.getD 0 ≤ e.quality_score.getD 0) ∧
      (boolTruthy fo = true → e.featured = true)) ∧
    (∀ e ∈ idx.entries.getD [],
      (strTruthy q = true → qMatch (jsLower (q.getD "")) e = true) →
      (strTruthy c = true → e.category = c.getD "") →
      (numTruthy mq = true → mq.getD 0 ≤ e.quality_score.getD 0) →
      (boolTruthy fo = true → e.featured = true) →
      e ∈ searchResults idx q c mq fo) := by
  refine ⟨?_, ?_, ?_⟩ <;> intro e he
  · exact ((mem_searchResults idx q c mq fo e).1 he).1
  · exact ((mem_searchResults idx q c mq fo e).1 he).2
  · intro h1 h2 h3 h4
    exact (mem_searchResults idx q c mq fo e).2 ⟨he, h1, h2, h3, h4⟩

/-- Witness for C1: a fully filtered concrete query listing a matching
entry. -/
theorem c1_search_conjunction_witness :
    eSafety ∈ searchResults idxSample (some "guard") (some "safety-filters")
      (some 50) (some true) :=
  (c1_search_conjunction idxSample (some "guard") (some "safety-filters")
      (some 50) (some true)).2.2 eSafety
    (by decide) (by decide) (by decide) (by decide) (by decide)

/-- C6: with `min_quality = 80` the search excludes entries whose
quality score is absent or below 80 (an absent score is treated as 0)
and includes entries scoring exactly 80 (inclusive comparison). -/
theorem c6_min_quality_boundary (idx : IndexDoc) (e : Entry)
    (he : e ∈ idx.entries.getD []) :
    (e.quality_score = none → e ∉ searchResults idx none none (some 80) none) ∧
    (∀ s : ℚ, e.quality_score = some s → s < 80 →
      e ∉ searchResults idx none none (some 80) none) ∧
    (e.quality_score = some 80 → e ∈ searchResults idx none none (some 80) none) := by
  refine ⟨?_, ?_, ?_⟩
  · intro h hmem
    have hle := ((mem_searchResults idx none none (some 80) none e).1 hmem).2.2.2.1
      (by decide)
    rw [h] at hle
    norm_num at hle
  · intro s h hs hmem
    have hle := ((mem_searchResults idx none none (some 80) none e).1 hmem).2.2.2.1
      (by decide)
    rw [h] at hle
    simp only [Option.getD_some] at hle
    exact absurd hle (not_le.mpr hs)
  · intro h
    refine (mem_searchResults idx none none (some 80) none e).2
      ⟨he, by simp [strTruthy], by simp [strTruthy], ?_, by simp [boolTruthy]⟩
    intro _
    rw [h]

/-- Witness for C6: quality 80 is kept, quality 79 and a missing score
are dropped. -/
theorem c6_min_quality_boundary_witness :
    eSafety ∈ searchResults idxSample none none (some 80) none ∧
    eLow ∉ searchResults idxSample none none (some 80) none ∧
    eNoScore ∉ searchResults idxSample none none (some 80) none := by
  refine ⟨?_, ?_, ?_⟩
  · exact (c6_min_quality_boundary idxSample eSafety (by decide)).2.2 (by decide)
  · exact (c6_min_quality_boundary idxSample eLow (by decide)).2.1 79 (by decide)
      (by norm_num)
  · exact (c6_min_quality_boundary idxSample eNoScore (by decide)).1 (by decide)

theorem qMatch_empty_term (e : Entry) : qMatch "" e = true := by
  have h1 : jsIncludes (jsLower e.title) "" = true := by
    simp [jsIncludes, show ("" : String).data = [] from rfl, listContains_nil]
  simp [qMatch, h1]

/-- C7: with only `q` supplied, an index entry is kept exactly when
the lowercased query occurs as a substring of the lowercased title, of
some lowercased tag, of the lowercased slug, or of the lowercased
category. -/
theorem c7_keyword_filter (idx : IndexDoc) (q : String) (e : Entry)
    (he : e ∈ idx.entries.getD []) :
    e ∈ searchResults idx (some q) none none none ↔
      (jsIncludes (jsLower e.title) (jsLower q) = true ∨
       (∃ t ∈ e.tags.getD [], jsIncludes (jsLower t) (jsLower q) = true) ∨
       jsIncludes (jsLower e.slug) (jsLower q) = true ∨
       jsIncludes (jsLower e.category) (jsLower q) = true) := by
  have hqm : qMatch (jsLower q) e = true ↔
      (jsIncludes (jsLower e.title) (jsLower q) = true ∨
       (∃ t ∈ e.tags.getD [], jsIncludes (jsLower t) (jsLower q) = true) ∨
       jsIncludes (jsLower e.slug) (jsLower q) = true ∨
       jsIncludes (jsLower e.category) (jsLower q) = true) := by
    simp only [qMatch, List.any_eq_true, Bool.or_eq_true]
    simp [or_assoc]
  rw [← hqm, mem_searchResults]
  constructor
  · rintro ⟨-, h1, -, -, -⟩
    cases hst : strTruthy (some q) with
    | true => exact h1 hst
    | false =>
      have hq0 : q = "" := by
        have : q.isEmpty = true := by
          simpa [strTruthy] using hst
        exact (String.isEmpty_iff q).mp this
      subst hq0
      exact qMatch_empty_term e
  · intro hr
    exact ⟨he, fun _ => hr, by simp [strTruthy], by simp [numTruthy], by simp [boolTruthy]⟩

/-- Witness for C7: the uppercase query `SAFETY` matches an entry
carrying the tag `safety-filters`. -/
theorem c7_keyword_filter_witness :
    eSafety ∈ searchResults idxSample (some "SAFETY") none none none :=
  (c7_keyword_filter idxSample "SAFETY" eSafety (by decide)).mpr (by decide)

/-- C10: the search handler treats a falsy argument value exactly like
an absent one — `q = ""` and `min_quality = 0` skip their filters, so
their presence is unobservable in the handler result. -/
theorem c10_falsy_arguments_skipped (ri : HttpReply IndexDoc) (a : ToolArgs) :
    handleSearchRegistry ri { a with q := some "" }
        = handleSearchRegistry ri { a with q := none } ∧
    handleSearchRegistry ri { a with min_quality := some 0 }
        = handleSearchRegistry ri { a with min_quality := none } := by
  constructor <;> rfl

/-- The counting loop adds, per declared key, the number of entries in
that category; keys never present stay absent. -/
theorem foldl_bumpCount (es : List Entry) (m : String → Option Nat) (cat : String) :
    (es.foldl bumpCount m) cat
      = (m cat).map (fun n => n + (es.filter (fun e => e.category == cat)).length) := by
  induction es generalizing m with
  | nil => cases hm : m cat <;> simp [hm]
  | cons e es ih =>
    rw [List.foldl_cons, ih, List.filter_cons]
    by_cases h1 : cat = e.category
    · rw [if_pos (show (e.category == cat) = true by simp [beq_iff_eq, h1.symm])]
      simp only [bumpCount, if_pos h1]
      cases hm : m cat
      · simp [hm]
      · simp [hm, List.length_cons]
        omega
    · rw [if_neg (show ¬ ((e.category == cat) = true) by
        simp only [beq_iff_eq]
        exact fun hh => h1 hh.symm)]
      simp only [bumpCount, if_neg h1]

theorem displayedCount_spec (idx : IndexDoc) (cat : String) (h : cat ∈ idx.categories) :
    displayedCount idx cat
      = ((idx.entries.getD []).filter (fun e => e.category == cat)).length := by
  unfold displayedCount finalCounts
  rw [foldl_bumpCount]
  simp [initCounts, h]

theorem length_filter_mem_cons (c : String) (cs : List String) (hc : c ∉ cs)
    (es : List Entry) :
    (es.filter (fun e => e.category == c)).length
      + (es.filter (fun e => decide (e.category ∈ cs))).length
      = (es.filter (fun e => decide (e.category ∈ c :: cs))).length := by
  induction es with
  | nil => rfl
  | cons e es ih =>
    rw [List.filter_cons, List.filter_cons, List.filter_cons]
    by_cases h1 : e.category = c
    · have h2 : e.category ∉ cs := h1 ▸ hc
      rw [if_pos (show (e.category == c) = true by simp [beq_iff_eq, h1]),
        if_neg (show ¬ (decide (e.category ∈ cs) = true) by simp [h2]),
        if_pos (show decide (e.category ∈ c :: cs) = true by simp [h1])]
      simp only [List.length_cons]
      omega
    · by_cases h2 : e.category ∈ cs
      · rw [if_neg (show ¬ ((e.category == c) = true) by simp [beq_iff_eq, h1]),
          if_pos (show decide (e.category ∈ cs) = true by simp [h2]),
          if_pos (show decide (e.category ∈ c :: cs) = true by simp [h2])]
        simp only [List.length_cons]
        omega
      · rw [if_neg (show ¬ ((e.category == c) = true) by simp [beq_iff_eq, h1]),
          if_neg (show ¬ (decide (e.category ∈ cs) = true) by simp [h2]),
          if_neg (show ¬ (decide (e.category ∈ c :: cs) = true) by simp [h1, h2])]
        omega

/-- With distinct declared categories, the per-category counts sum to
the number of entries whose category is declared. -/
theorem sum_counts (cats : List String) (es : List Entry) (h : cats.Nodup) :
    (cats.map (fun c => (es.filter (fun e => e.category == c)).length)).sum
      = (es.filter (fun e => decide (e.category ∈ cats))).length := by
  induction cats with
  | nil => simp
  | cons c cs ih =>
    have hc : c ∉ cs := (List.nodup_cons.mp h).1
    have hcs : cs.Nodup := (List.nodup_cons.mp h).2
    simp only [List.map_cons, List.sum_cons, ih hcs]
    exact length_filter_mem_cons c cs hc es

/-- C9 counterexample: an index whose `count` field disagrees with its
entry list (count 0, one entry in a declared category) makes the
reported counts sum to 1 > 0, so for such an index the claimed bound
`sum ≤ IndexDocument.count` is false as stated. -/
def eBad : Entry :=
  { title := "t", slug := "s", category := "a", tags := none,
    quality_score := none, featured := false, url := "u" }

def idxBad : IndexDoc :=
  { count := 0, categories := ["a"], entries := some [eBad] }

theorem c9_counterexample : ¬ ((displayedCounts idxBad).sum ≤ idxBad.count) := by decide

/-- C9 as amended: for every index whose `count` field equals its
number of entries and whose declared category list has no duplicates,
the counts reported by list-categories sum to the number of entries
with a declared category (entries in undeclared categories are
excluded), hence to at most `count`, with equality when every entry's
category is declared. -/
theorem c9_category_counts (idx : IndexDoc)
    (hcount : idx.count = (idx.entries.getD []).length)
    (hnodup : idx.categories.Nodup) :
    (displayedCounts idx).sum
      = ((idx.entries.getD []).filter
          (fun e => decide (e.category ∈ idx.categories))).length ∧
    (displayedCounts idx).sum ≤ idx.count ∧
    ((∀ e ∈ idx.entries.getD [], e.category ∈ idx.categories) →
      (displayedCounts idx).sum = idx.count) := by
  have hmap : displayedCounts idx = idx.categories.map
      (fun c => ((idx.entries.getD []).filter (fun e => e.category == c)).length) := by
    exact List.map_congr_left (fun cat hcat => displayedCount_spec idx cat hcat)
  have hsum : (displayedCounts idx).sum
      = ((idx.entries.getD []).filter
          (fun e => decide (e.category ∈ idx.categories))).length := by
    rw [hmap]
    exact sum_counts idx.categories (idx.entries.getD []) hnodup
  refine ⟨hsum, ?_, ?_⟩
  · rw [hsum, hcount]
    exact List.length_filter_le _ _
  · intro hall
    rw [hsum, hcount]
    congr 1
    exact List.filter_eq_self.mpr (fun e hmem => by simpa using hall e hmem)

/-- Witness for C9 at a consistent concrete index. -/
theorem c9_category_counts_witness :
    (displayedCounts idxSample).sum = idxSample.count :=
  (c9_category_counts idxSample (by decide) (by decide)).2.2 (by decide)

theorem handleSearchRegistry_err (ri : HttpReply IndexDoc) (a : ToolArgs)
    (h : ri.ok = false) :
    handleSearchRegistry ri a
      = Except.error ("Registry unavailable: " ++ toString ri.status) := by
  unfold handleSearchRegistry
  rw [show fetchIndex ri = Except.error ("Registry unavailable: " ++ toString ri.status)
    from by simp [fetchIndex, h]]
  rfl

theorem handleListCategories_err (ri : HttpReply IndexDoc) (h : ri.ok = false) :
    handleListCategories ri
      = Except.error ("Registry unavailable: " ++ toString ri.status) := by
  unfold handleListCategories
  rw [show fetchIndex ri = Except.error ("Registry unavailable: " ++ toString ri.status)
    from by simp [fetchIndex, h]]
  rfl

theorem handleGetFeatured_err (ri : HttpReply IndexDoc) (h : ri.ok = false) :
    handleGetFeatured ri
      = Except.error ("Registry unavailable: " ++ toString ri.status) := by
  unfold handleGetFeatured
  rw [show fetchIndex ri = Except.error ("Registry unavailable: " ++ toString ri.status)
    from by simp [fetchIndex, h]]
  rfl

/-- C2: the dispatcher never throws: an unknown tool name yields a
normal result carrying `isError` whose message contains the requested
name, and any handler exception is converted into an
`Error: {message}` envelope. -/
theorem c2_dispatcher_total (name : String) (args : Option ToolArgs)
    (ri : HttpReply IndexDoc) (rf : HttpReply String) (m : String) :
    (name ∉ toolNames →
      callTool name args ri rf
          = { content := [mkText ("Unknown tool: " ++ name)], isError := true } ∧
      jsIncludes ("Unknown tool: " ++ name) name = true) ∧
    (rawDispatch name args ri rf = Except.error m →
      callTool name args ri rf
          = { content := [mkText ("Error: " ++ m)], isError := true }) := by
  constructor
  · intro hname
    simp only [toolNames, List.mem_cons, List.not_mem_nil, or_false, not_or] at hname
    refine ⟨?_, jsIncludes_append_self "Unknown tool: " name⟩
    simp only [callTool, rawDispatch, if_neg hname.1, if_neg hname.2.1,
      if_neg hname.2.2.1, if_neg hname.2.2.2]
  · intro hm
    simp only [callTool, hm]

/-- Witness for C2: a concrete unknown tool name, and a concrete
handler failure converted into an error envelope. -/
theorem c2_dispatcher_total_witness :
    callTool "bogus" none { ok := true, status := 200, body := idxSample }
        { ok := true, status := 200, body := "" }
      = { content := [mkText "Unknown tool: bogus"], isError := true } ∧
    callTool "search_registry" none { ok := false, status := 500, body := idxSample }
        { ok := true, status := 200, body := "" }
      = { content := [mkText "Error: Registry unavailable: 500"], isError := true } := by
  constructor
  · exact ((c2_dispatcher_total "bogus" none
      { ok := true, status := 200, body := idxSample }
      { ok := true, status := 200, body := "" } "").1 (by decide)).1
  · have hE : rawDispatch "search_registry" none
        { ok := false, status := 500, body := idxSample }
        { ok := true, status := 200, body := "" }
        = Except.error "Registry unavailable: 500" := by
      have hs : rawDispatch "search_registry" none
          { ok := false, status := 500, body := idxSample }
          { ok := true, status := 200, body := "" }
          = handleSearchRegistry { ok := false, status := 500, body := idxSample }
              emptyArgs := by
        simp [rawDispatch]
      rw [hs, handleSearchRegistry_err _ _ rfl]
      rw [show ("Registry unavailable: " ++ toString (500 : Nat))
        = "Registry unavailable: 500" from by decide]
    exact ((c2_dispatcher_total "search_registry" none
      { ok := false, status := 500, body := idxSample }
      { ok := true, status := 200, body := "" } "Registry unavailable: 500").2 hE).trans
      (by decide)

/-- C8: a non-success status from the index endpoint surfaces, through
each of the three index-dependent handlers, as an `isError` envelope
whose text contains the status code. -/
theorem c8_index_unavailable (ri : HttpReply IndexDoc) (rf : HttpReply String)
    (args : Option ToolArgs) (h : ri.ok = false) :
    callTool "search_registry" args ri rf
        = { content := [mkText ("Error: Registry unavailable: " ++ toString ri.status)],
            isError := true } ∧
    callTool "list_categories" args ri rf
        = { content := [mkText ("Error: Registry unavailable: " ++ toString ri.status)],
            isError := true } ∧
    callTool "get_featured" args ri rf
        = { content := [mkText ("Error: Registry unavailable: " ++ toString ri.status)],
            isError := true } ∧
    jsIncludes ("Error: Registry unavailable: " ++ toString ri.status)
        (toString ri.status) = true := by
  have hs : rawDispatch "search_registry" args ri rf
      = handleSearchRegistry ri (args.getD emptyArgs) := by simp [rawDispatch]
  have hl : rawDispatch "list_categories" args ri rf = handleListCategories ri := by
    simp [rawDispatch]
  have hg : rawDispatch "get_featured" args ri rf = handleGetFeatured ri := by
    simp [rawDispatch]
  have hassoc : "Error: " ++ ("Registry unavailable: " ++ toString ri.status)
      = "Error: Registry unavailable: " ++ toString ri.status := by
    rw [← String.append_assoc]
    rw [show ("Error: " ++ "Registry unavailable: ")
      = "Error: Registry unavailable: " from by decide]
  refine ⟨?_, ?_, ?_, ?_⟩
  · simp only [callTool, hs, handleSearchRegistry_err ri _ h, hassoc]
  · simp only [callTool, hl, handleListCategories_err ri h, hassoc]
  · simp only [callTool, hg, handleGetFeatured_err ri h, hassoc]
  · exact jsIncludes_append_self "Error: Registry unavailable: " (toString ri.status)

/-- Witness for C8 at a concrete failing status. -/
theorem c8_index_unavailable_witness :
    callTool "list_categories" none { ok := false, status := 503, body := idxSample }
        { ok := true, status := 200, body := "" }
      = { content := [mkText "Error: Registry unavailable: 503"], isError := true } :=
  (c8_index_unavailable { ok := false, status := 503, body := idxSample }
    { ok := true, status := 200, body := "" } none (by decide)).2.1

/-- C5: when the document fetch succeeds, `instruction_only` is true
and extraction returns absent, the fetch-one handler returns a normal
(non-error) result whose text is the full raw document prefixed by the
extraction-failure notice. -/
theorem c5_extraction_fallback (rf : HttpReply String) (a : ToolArgs)
    (hok : rf.ok = true) (hio : boolTruthy a.instruction_only = true)
    (hex : extractInstruction rf.body.data = none) :
    handleGetInstruction rf a = Except.ok (getInstructionFallback a.slug rf.body) ∧
    (getInstructionFallback a.slug rf.body).isError = false ∧
    (getInstructionFallback a.slug rf.body).content
      = [mkText ("Could not extract instruction from " ++ jsOptStr a.slug
          ++ ". Returning full file instead:\n\n" ++ rf.body)] := by
  refine ⟨?_, rfl, rfl⟩
  unfold handleGetInstruction
  rw [show fetchFile rf a.slug = Except.ok rf.body from by simp [fetchFile, hok]]
  show (if boolTruthy a.instruction_only then _ else _ : Except String ToolResult) = _
  rw [if_pos hio, hex]
  rfl

/-- Witness for C5: a raw document with no Instruction heading. -/
theorem c5_extraction_fallback_witness :
    handleGetInstruction { ok := true, status := 200, body := "plain body" }
        { slug := some "x", instruction_only := some true }
      = Except.ok (getInstructionFallback (some "x") "plain body") :=
  (c5_extraction_fallback { ok := true, status := 200, body := "plain body" }
    { slug := some "x", instruction_only := some true }
    (by decide) (by decide) (by decide)).1

end OpenClaw
